import Mathlib

/-!
Verification of the credential-lifecycle and webhook trust boundary of the
estimator repository.  The TypeScript sources are shallowly embedded:

* strings are lists of characters, byte buffers are lists of naturals;
* `Buffer`'s base64 codec is implemented concretely (it is a fixed standard);
* HMAC-SHA256 and SHA-256 are abstracted as function parameters, since their
  internals never matter to the properties under study;
* Prisma store operations become explicit state passing over a `Store` value,
  with fallible database calls modelled by an explicit fault oracle, mirroring
  the `try`/`catch` structure of the route handler.
-/

namespace Estimator

/-- Byte buffers are lists of naturals; each entry stands for one byte. -/
abbrev Bytes := List Nat

/-- JavaScript strings are modelled as lists of characters. -/
abbrev Str := List Char

/-- Model of `Buffer.from(string)` (UTF-8 encoding); faithful on the ASCII
range, which covers every string the embedded code feeds to it. -/
def charsToBytes (s : Str) : Bytes := s.map Char.toNat

/-- Model of `buffer.toString("utf8")`; faithful on the ASCII range. -/
def bytesToChars (b : Bytes) : Str := b.map Char.ofNat

/-- Standard base64 alphabet in sextet order, as used by `Buffer.toString("base64")`. -/
def b64Alpha : Str :=
  "ABCDEFGHIJKLMNOPQRSTUVWXYZabcdefghijklmnopqrstuvwxyz0123456789+/".toList

/-- Alphabet character of a sextet value. -/
def sextetChar (n : Nat) : Char := b64Alpha.getD n 'A'

/-- Position of a character in the base64 alphabet.  Characters outside the
alphabet (including `'='`) yield `none`; the decoder skips them, matching
Node's lenient base64 decoding. -/
def alphaIdx (c : Char) : Str → Option Nat
  | [] => none
  | a :: rest => if c = a then some 0 else (alphaIdx c rest).map (· + 1)

/-- Sextet value of one base64 character, if any. -/
def charToSextet (c : Char) : Option Nat := alphaIdx c b64Alpha

/-- Sextet stream produced when base64-encoding a byte sequence (the data
characters of the encoding, before padding is appended). -/
def encSextets : Bytes → List Nat
  | b0 :: b1 :: b2 :: rest =>
      b0 / 4 :: ((b0 % 4) * 16 + b1 / 16) :: ((b1 % 16) * 4 + b2 / 64) :: b2 % 64 ::
        encSextets rest
  | [b0, b1] => [b0 / 4, (b0 % 4) * 16 + b1 / 16, (b1 % 16) * 4]
  | [b0] => [b0 / 4, (b0 % 4) * 16]
  | [] => []

/-- Model of `Buffer.toString("base64")`: standard base64 with `'='` padding. -/
def encB64 : Bytes → Str
  | b0 :: b1 :: b2 :: rest =>
      sextetChar (b0 / 4) :: sextetChar ((b0 % 4) * 16 + b1 / 16) ::
        sextetChar ((b1 % 16) * 4 + b2 / 64) :: sextetChar (b2 % 64) :: encB64 rest
  | [b0, b1] =>
      [sextetChar (b0 / 4), sextetChar ((b0 % 4) * 16 + b1 / 16),
        sextetChar ((b1 % 16) * 4), '=']
  | [b0] => [sextetChar (b0 / 4), sextetChar ((b0 % 4) * 16), '=', '=']
  | [] => []

/-- Byte sequence recovered from a base64 sextet stream. -/
def decSextets : List Nat → Bytes
  | s0 :: s1 :: s2 :: s3 :: rest =>
      (s0 * 4 + s1 / 16) :: ((s1 % 16) * 16 + s2 / 4) :: ((s2 % 4) * 64 + s3) ::
        decSextets rest
  | [s0, s1, s2] => [s0 * 4 + s1 / 16, (s1 % 16) * 16 + s2 / 4]
  | [s0, s1] => [s0 * 4 + s1 / 16]
  | _ => []

/-- Model of `Buffer.from(string, "base64")`: non-alphabet characters
(`'='` included) are skipped, then sextets are packed back into bytes. -/
def decB64 (s : Str) : Bytes := decSextets (s.filterMap charToSextet)

/-- Character replacement `+` to `-` and `/` to `_` performed by
`base64UrlEncode` in `src/src/lib/crypto.ts`. -/
def stdToUrl (c : Char) : Char := if c = '+' then '-' else if c = '/' then '_' else c

/-- Character replacement `-` to `+` and `_` to `/` performed by
`base64UrlDecode` in `src/src/lib/crypto.ts`. -/
def urlToStd (c : Char) : Char := if c = '-' then '+' else if c = '_' then '/' else c

/-- Removal of the trailing run of `'='` characters (`replace(/=+$/g, "")`). -/
def stripTrailingEq (s : Str) : Str := (s.reverse.dropWhile (· == '=')).reverse

/-- Model of `base64UrlEncode` (src/src/lib/crypto.ts lines 32–35): standard
base64, `+/` replaced by `-_`, trailing padding stripped. -/
def base64UrlEncode (input : Bytes) : Str :=
  stripTrailingEq ((encB64 input).map stdToUrl)

/-- Model of `base64UrlDecode` (src/src/lib/crypto.ts lines 37–42): undo the
character replacement, restore padding to a multiple of four, decode. -/
def base64UrlDecode (input : Str) : Bytes :=
  let normalized := input.map urlToStd
  let r := normalized.length % 4
  let padding := 4 - (if r = 0 then 4 else r)
  decB64 (normalized ++ List.replicate (padding % 4) '=')

/-! ### Round-trip facts about the base64 codec -/

theorem decSextets_encSextets (b : Bytes) (h : ∀ x ∈ b, x < 256) :
    decSextets (encSextets b) = b := by
  induction b using encSextets.induct with
  | case1 b0 b1 b2 rest ih =>
    have h0 : b0 < 256 := h b0 (by simp)
    have h1 : b1 < 256 := h b1 (by simp)
    have h2 : b2 < 256 := h b2 (by simp)
    simp only [encSextets, decSextets, List.cons.injEq]
    refine ⟨by omega, by omega, by omega, ih (fun x hx => h x (by simp [hx]))⟩
  | case2 b0 b1 =>
    have h0 : b0 < 256 := h b0 (by simp)
    have h1 : b1 < 256 := h b1 (by simp)
    simp only [encSextets, decSextets, List.cons.injEq]
    refine ⟨by omega, by omega, ?_⟩
    trivial
  | case3 b0 =>
    have h0 : b0 < 256 := h b0 (by simp)
    simp only [encSextets, decSextets, List.cons.injEq]
    refine ⟨by omega, ?_⟩
    trivial
  | case4 => rfl

theorem sextetChar_mem (n : Nat) : sextetChar n ∈ b64Alpha := by
  unfold sextetChar
  rw [List.getD_eq_getD_get?]
  rcases h : b64Alpha.get? n with _ | c
  · simp [Option.getD]
    decide
  · simpa [Option.getD] using List.get?_mem h

theorem charToSextet_sextetChar (n : Nat) (h : n < 64) :
    charToSextet (sextetChar n) = some n := by
  revert h
  revert n
  decide

theorem encSextets_lt (b : Bytes) (hb : ∀ x ∈ b, x < 256) :
    ∀ s ∈ encSextets b, s < 64 := by
  induction b using encSextets.induct with
  | case1 b0 b1 b2 rest ih =>
    have h0 : b0 < 256 := hb b0 (by simp)
    have h1 : b1 < 256 := hb b1 (by simp)
    have h2 : b2 < 256 := hb b2 (by simp)
    intro s hs
    simp only [encSextets, List.mem_cons] at hs
    rcases hs with rfl | rfl | rfl | rfl | hs
    · omega
    · omega
    · omega
    · omega
    · exact ih (fun x hx => hb x (by simp [hx])) s hs
  | case2 b0 b1 =>
    have h0 : b0 < 256 := hb b0 (by simp)
    have h1 : b1 < 256 := hb b1 (by simp)
    intro s hs
    simp only [encSextets, List.mem_cons, List.not_mem_nil, or_false] at hs
    rcases hs with rfl | rfl | rfl <;> omega
  | case3 b0 =>
    have h0 : b0 < 256 := hb b0 (by simp)
    intro s hs
    simp only [encSextets, List.mem_cons, List.not_mem_nil, or_false] at hs
    rcases hs with rfl | rfl <;> omega
  | case4 => intro s hs; simp [encSextets] at hs

/-- Structure of the padded base64 encoding: data characters followed by at
most two padding characters. -/
theorem encB64_eq_core_pad (b : Bytes) :
    ∃ k, k ≤ 2 ∧ encB64 b = (encSextets b).map sextetChar ++ List.replicate k '=' := by
  induction b using encSextets.induct with
  | case1 b0 b1 b2 rest ih =>
    obtain ⟨k, hk, he⟩ := ih
    exact ⟨k, hk, by simp [encB64, encSextets, he]⟩
  | case2 b0 b1 => exact ⟨1, by omega, by simp [encB64, encSextets, List.replicate]⟩
  | case3 b0 => exact ⟨2, by omega, by simp [encB64, encSextets, List.replicate]⟩
  | case4 => exact ⟨0, by omega, by simp [encB64, encSextets]⟩

theorem dropWhile_eq_self_of_all {p : Char → Bool} (l : Str) (h : ∀ c ∈ l, p c = false) :
    l.dropWhile p = l := by
  cases l with
  | nil => rfl
  | cons a t => simp [List.dropWhile_cons, h a (by simp)]

theorem filterMap_eq_self_of_some {α : Type} (l : List α) (f : α → Option α)
    (h : ∀ x ∈ l, f x = some x) : l.filterMap f = l := by
  induction l with
  | nil => rfl
  | cons a t ih =>
    simp [List.filterMap_cons, h a (by simp), ih (fun x hx => h x (by simp [hx]))]

theorem stripTrailingEq_append (xs ys : Str) (hxs : ∀ c ∈ xs, c ≠ '=') :
    stripTrailingEq (xs ++ ys) = xs ++ stripTrailingEq ys := by
  unfold stripTrailingEq
  rw [List.reverse_append, List.dropWhile_append]
  by_cases hy : (ys.reverse.dropWhile (· == '=')).isEmpty
  · rw [if_pos hy]
    rw [List.isEmpty_iff] at hy
    rw [hy, List.reverse_nil, List.append_nil]
    rw [dropWhile_eq_self_of_all xs.reverse ?_, List.reverse_reverse]
    intro c hc
    have := hxs c (List.mem_reverse.mp hc)
    simp [this]
  · rw [if_neg hy, List.reverse_append, List.reverse_reverse]

theorem stripTrailingEq_replicate (k : Nat) :
    stripTrailingEq (List.replicate k '=') = [] := by
  unfold stripTrailingEq
  rw [List.reverse_replicate]
  have : (List.replicate k '=').dropWhile (· == '=') = [] := by
    induction k with
    | zero => rfl
    | succ n ih => simp [List.replicate_succ, List.dropWhile, ih]
  simp [this]

/-- Every data character of the encoding survives the URL replacement and is
restored by the inverse replacement. -/
theorem urlToStd_stdToUrl (c : Char) (h : c ∈ b64Alpha) :
    urlToStd (stdToUrl c) = c := by
  revert h
  revert c
  decide

theorem stdToUrl_ne_eq (c : Char) (h : c ∈ b64Alpha) : stdToUrl c ≠ '=' := by
  revert h
  revert c
  decide

/-- Closed form of `base64UrlEncode`: the data characters, URL-replaced, with
no padding. -/
theorem base64UrlEncode_eq (b : Bytes) :
    base64UrlEncode b = (encSextets b).map (fun s => stdToUrl (sextetChar s)) := by
  obtain ⟨k, _, he⟩ := encB64_eq_core_pad b
  unfold base64UrlEncode
  rw [he, List.map_append]
  have hrep : (List.replicate k '=').map stdToUrl = List.replicate k '=' := by
    simp [List.map_replicate, stdToUrl]
  have hsafe : ∀ c ∈ ((encSextets b).map sextetChar).map stdToUrl, c ≠ '=' := by
    intro c hc
    simp only [List.mem_map] at hc
    obtain ⟨c0, ⟨s, _, rfl⟩, rfl⟩ := hc
    exact stdToUrl_ne_eq _ (sextetChar_mem s)
  rw [hrep, stripTrailingEq_append _ _ hsafe, stripTrailingEq_replicate, List.append_nil,
    List.map_map]
  rfl

theorem charToSextet_eq_none_of_pad : charToSextet '=' = none := by decide

/-- Round trip of the URL-safe base64 codec on byte sequences, exactly as the
pair `base64UrlEncode` / `base64UrlDecode` composes in the source. -/
theorem base64UrlDecode_encode (b : Bytes) (h : ∀ x ∈ b, x < 256) :
    base64UrlDecode (base64UrlEncode b) = b := by
  rw [base64UrlEncode_eq]
  simp only [base64UrlDecode, decB64]
  rw [List.filterMap_append, List.map_map]
  have hmap : (encSextets b).map (urlToStd ∘ fun s => stdToUrl (sextetChar s)) =
      (encSextets b).map sextetChar := by
    apply List.map_congr_left
    intro s _
    exact urlToStd_stdToUrl _ (sextetChar_mem s)
  rw [hmap]
  have hrep : ∀ k, (List.replicate k '=').filterMap charToSextet = [] := by
    intro k
    apply List.filterMap_eq_nil_iff.mpr
    intro c hc
    rw [List.eq_of_mem_replicate hc]
    exact charToSextet_eq_none_of_pad
  have hdata : ((encSextets b).map sextetChar).filterMap charToSextet = encSextets b := by
    rw [List.filterMap_map]
    exact filterMap_eq_self_of_some _ _
      (fun s hs => charToSextet_sextetChar s (encSextets_lt b h s hs))
  rw [hrep, hdata, List.append_nil]
  exact decSextets_encSextets b h

/-- Round trip of the padded standard base64 codec, as composed by
`computeWebhookSignature` (encode) and signature comparison. -/
theorem decB64_encB64 (b : Bytes) (h : ∀ x ∈ b, x < 256) :
    decB64 (encB64 b) = b := by
  obtain ⟨k, _, he⟩ := encB64_eq_core_pad b
  unfold decB64
  rw [he, List.filterMap_append]
  have hrep : (List.replicate k '=').filterMap charToSextet = [] := by
    apply List.filterMap_eq_nil_iff.mpr
    intro c hc
    rw [List.eq_of_mem_replicate hc]
    exact charToSextet_eq_none_of_pad
  have hdata : ((encSextets b).map sextetChar).filterMap charToSextet = encSextets b := by
    rw [List.filterMap_map]
    exact filterMap_eq_self_of_some _ _
      (fun s hs => charToSextet_sextetChar s (encSextets_lt b h s hs))
  rw [hrep, hdata, List.append_nil]
  exact decSextets_encSextets b h

/-- The standard base64 encoding is injective on genuine byte sequences. -/
theorem encB64_inj (a b : Bytes) (ha : ∀ x ∈ a, x < 256) (hb : ∀ x ∈ b, x < 256)
    (h : encB64 a = encB64 b) : a = b := by
  have := congrArg decB64 h
  rwa [decB64_encB64 a ha, decB64_encB64 b hb] at this

theorem encSextets_ne_nil (b : Bytes) (h : b ≠ []) : encSextets b ≠ [] := by
  match b with
  | b0 :: b1 :: b2 :: rest => simp [encSextets]
  | [b0, b1] => simp [encSextets]
  | [b0] => simp [encSextets]
  | [] => exact absurd rfl h

theorem base64UrlEncode_ne_nil (b : Bytes) (h : b ≠ []) : base64UrlEncode b ≠ [] := by
  rw [base64UrlEncode_eq]
  simpa using encSextets_ne_nil b h

theorem encB64_ne_nil (b : Bytes) (h : b ≠ []) : encB64 b ≠ [] := by
  obtain ⟨k, _, he⟩ := encB64_eq_core_pad b
  rw [he]
  intro hcon
  rcases List.append_eq_nil.mp hcon with ⟨h1, _⟩
  exact encSextets_ne_nil b h (by simpa using h1)

/-- Characters a URL-safe base64 encoding can contain are printable ASCII and
are none of quote, backslash, dot, equals: safe both inside a JSON string
literal and as a `.`-separated token segment. -/
def tokenSafe (c : Char) : Prop :=
  32 ≤ c.toNat ∧ c.toNat < 127 ∧ c ≠ '"' ∧ c ≠ '\\' ∧ c ≠ '.' ∧ c ≠ '='

instance (c : Char) : Decidable (tokenSafe c) := by
  unfold tokenSafe
  infer_instance

theorem base64UrlEncode_tokenSafe (b : Bytes) :
    ∀ c ∈ base64UrlEncode b, tokenSafe c := by
  rw [base64UrlEncode_eq]
  intro c hc
  simp only [List.mem_map] at hc
  obtain ⟨s, _, rfl⟩ := hc
  have hmem := sextetChar_mem s
  revert hmem
  generalize sextetChar s = c0
  revert c0
  decide

/-! ### The OAuth state payload and its JSON codec

The payload type mirrors `OAuthStatePayload` in `src/unnamed/part_001`
(`src/lib/oauth-state.ts`): `\x7b exp; iat; nonce \x7d`.  `JSON.stringify` of
the object literal `\x7b iat, exp, nonce \x7d` produces the keys in insertion
order; `JSON.parse` is modelled by a parser for exactly that shape, which is
what `JSON.parse` computes on the strings the codec produces (nonces never
contain quotes, backslashes or control characters). -/

structure OAuthStatePayload where
  iat : Nat
  exp : Nat
  nonce : Str
deriving DecidableEq, Repr

/-- Decimal digit character. -/
def digitChar (d : Nat) : Char := "0123456789".toList.getD d '0'

/-- Fuel-driven digit expansion (structural recursion, so that concrete
tokens evaluate definitionally). -/
def natCharsAux : Nat → Nat → Str
  | 0, _ => []
  | fuel + 1, n => if n < 10 then [digitChar n] else natCharsAux fuel (n / 10) ++ [digitChar (n % 10)]

/-- Decimal representation of a natural number, most significant digit first,
as produced by `JSON.stringify` for the integers stored in the payload. -/
def natChars (n : Nat) : Str := natCharsAux (n + 1) n

/-- The fuel argument is irrelevant as soon as it is positive and at least
the number of digits; `n + 1` always is. -/
theorem natCharsAux_fuel_irrelevant (fuel1 fuel2 n : Nat)
    (h1 : n < fuel1) (h2 : n < fuel2) : natCharsAux fuel1 n = natCharsAux fuel2 n := by
  induction fuel1 using Nat.strong_induction_on generalizing fuel2 n with
  | _ fuel1 ih =>
    match fuel1, fuel2 with
    | f1 + 1, f2 + 1 =>
      by_cases hn : n < 10
      · simp [natCharsAux, hn]
      · have hd : n / 10 < f1 := by omega
        have hd2 : n / 10 < f2 := by omega
        simp only [natCharsAux, if_neg hn]
        rw [ih f1 (by omega) f2 (n / 10) hd hd2]

/-- Unfolding equation of `natChars`. -/
theorem natChars_eq (n : Nat) :
    natChars n = if n < 10 then [digitChar n] else natChars (n / 10) ++ [digitChar (n % 10)] := by
  have step : natChars n = if n < 10 then [digitChar n]
      else natCharsAux n (n / 10) ++ [digitChar (n % 10)] := rfl
  rw [step]
  by_cases h : n < 10
  · rw [if_pos h, if_pos h]
  · rw [if_neg h, if_neg h]
    rw [natCharsAux_fuel_irrelevant n (n / 10 + 1) (n / 10) (by omega) (by omega)]
    rfl

/-- Numeric value of a run of decimal digit characters. -/
def digitsVal (ds : Str) : Nat := ds.foldl (fun a c => a * 10 + (c.toNat - 48)) 0

/-- Model of `JSON.stringify` on the state payload object literal. -/
def stringifyPayload (p : OAuthStatePayload) : Str :=
  "\x7b\"iat\":".toList ++ (natChars p.iat ++ (",\"exp\":".toList ++ (natChars p.exp ++
    (",\"nonce\":\"".toList ++ (p.nonce ++ "\"\x7d".toList)))))

/-- Consume an expected literal from the front of the input. -/
def dropLit : Str → Str → Option Str
  | [], s => some s
  | _ :: _, [] => none
  | c :: cs, a :: as_ => if a = c then dropLit cs as_ else none

/-- Consume a non-empty run of decimal digits and return its value. -/
def parseNatField (s : Str) : Option (Nat × Str) :=
  if s.takeWhile Char.isDigit = [] then none
  else some (digitsVal (s.takeWhile Char.isDigit), s.dropWhile Char.isDigit)

/-- Model of `JSON.parse` restricted to the serialized shape of the state
payload: reads the three fields of `\x7b"iat":_,"exp":_,"nonce":"_"\x7d` and
fails on any other string. -/
def parsePayload (s : Str) : Option OAuthStatePayload :=
  (dropLit ("\x7b\"iat\":".toList) s).bind fun s1 =>
  (parseNatField s1).bind fun iatR =>
  (dropLit (",\"exp\":".toList) iatR.2).bind fun s2 =>
  (parseNatField s2).bind fun expR =>
  (dropLit (",\"nonce\":\"".toList) expR.2).bind fun s3 =>
  (dropLit ("\"\x7d".toList) (s3.dropWhile (· != '"'))).bind fun s4 =>
  if s4 = [] then some ⟨iatR.1, expR.1, s3.takeWhile (· != '"')⟩ else none

/-! ### Round trip of the payload codec -/

theorem dropLit_append (lit rest : Str) : dropLit lit (lit ++ rest) = some rest := by
  induction lit with
  | nil => rfl
  | cons c cs ih => simp [dropLit, ih]

theorem span_stop {p : Char → Bool} (xs : Str) (a : Char) (ys : Str)
    (hxs : ∀ c ∈ xs, p c = true) (ha : p a = false) :
    (xs ++ a :: ys).takeWhile p = xs ∧ (xs ++ a :: ys).dropWhile p = a :: ys := by
  induction xs with
  | nil => simp [List.takeWhile_cons, List.dropWhile_cons, ha]
  | cons c t ih =>
    have hc := hxs c (by simp)
    have := ih (fun x hx => hxs x (by simp [hx]))
    simp [List.takeWhile_cons, List.dropWhile_cons, hc, this.1, this.2]

theorem dropLit_self (l : Str) : dropLit l l = some [] := by
  have := dropLit_append l []
  simpa using this

theorem digitChar_isDigit (d : Nat) (h : d < 10) : (digitChar d).isDigit = true := by
  revert h
  revert d
  decide

theorem digitChar_toNat (d : Nat) (h : d < 10) : (digitChar d).toNat = 48 + d := by
  revert h
  revert d
  decide

theorem natChars_all_digits (n : Nat) : ∀ c ∈ natChars n, c.isDigit = true := by
  induction n using Nat.strong_induction_on with
  | _ n ih =>
    intro c hc
    rw [natChars_eq] at hc
    by_cases h : n < 10
    · rw [if_pos h] at hc
      simp only [List.mem_singleton] at hc
      subst hc
      exact digitChar_isDigit n h
    · rw [if_neg h] at hc
      rcases List.mem_append.mp hc with hc | hc
      · exact ih (n / 10) (by omega) c hc
      · simp only [List.mem_singleton] at hc
        subst hc
        exact digitChar_isDigit _ (Nat.mod_lt _ (by omega))

theorem natChars_ne_nil (n : Nat) : natChars n ≠ [] := by
  rw [natChars_eq]
  split
  · simp
  · simp

theorem digitsVal_natChars (n : Nat) : digitsVal (natChars n) = n := by
  induction n using Nat.strong_induction_on with
  | _ n ih =>
    rw [natChars_eq]
    by_cases h : n < 10
    · rw [if_pos h]
      simp [digitsVal, digitChar_toNat n h]
    · rw [if_neg h]
      unfold digitsVal
      rw [List.foldl_append]
      have hih := ih (n / 10) (by omega)
      unfold digitsVal at hih
      rw [hih]
      simp only [List.foldl_cons, List.foldl_nil]
      rw [digitChar_toNat _ (Nat.mod_lt _ (by omega))]
      omega

/-- Numeric field followed by a non-digit boundary parses back to its value. -/
theorem parseNatField_eq (n : Nat) (a : Char) (ys : Str) (ha : a.isDigit = false) :
    parseNatField (natChars n ++ a :: ys) = some (n, a :: ys) := by
  have h := span_stop (p := Char.isDigit) (natChars n) a ys (natChars_all_digits n) ha
  unfold parseNatField
  rw [h.1, h.2, if_neg (natChars_ne_nil n), digitsVal_natChars]

/-- Span of the nonce inside the closing `"\x7d` of the serialized payload. -/
theorem nonce_span (nc : Str) (hn : ∀ c ∈ nc, c ≠ '"') :
    (nc ++ "\"\x7d".toList).takeWhile (· != '"') = nc ∧
    (nc ++ "\"\x7d".toList).dropWhile (· != '"') = "\"\x7d".toList := by
  have e4 : ("\"\x7d".toList : Str) = '"' :: "\x7d".toList := rfl
  rw [e4]
  exact span_stop nc '"' _ (fun c hc => bne_iff_ne.mpr (hn c hc)) (by decide)

/-- Parsing inverts serialization whenever the nonce contains no quote
character (true of every nonce the code mints). -/
theorem parsePayload_stringify (p : OAuthStatePayload)
    (hn : ∀ c ∈ p.nonce, c ≠ '"') :
    parsePayload (stringifyPayload p) = some p := by
  have e2 : (",\"exp\":".toList : Str) = ',' :: "\"exp\":".toList := rfl
  have e3 : (",\"nonce\":\"".toList : Str) = ',' :: "\"nonce\":\"".toList := rfl
  unfold stringifyPayload parsePayload
  rw [dropLit_append]
  simp only [Option.some_bind]
  rw [e2, List.cons_append, parseNatField_eq _ ',' _ (by decide)]
  simp only [Option.some_bind]
  rw [← List.cons_append, ← e2, dropLit_append]
  simp only [Option.some_bind]
  rw [e3, List.cons_append, parseNatField_eq _ ',' _ (by decide)]
  simp only [Option.some_bind]
  rw [← List.cons_append, ← e3, dropLit_append]
  simp only [Option.some_bind]
  have hs := nonce_span p.nonce hn
  rw [hs.1, hs.2, dropLit_self]
  simp only [Option.some_bind, if_pos]

/-! ### Models of `src/lib/crypto.ts` and `src/lib/oauth-state.ts`

HMAC-SHA256 is abstracted as a function parameter from key and message bytes
to digest bytes; every property below holds for an arbitrary such function
(with digest non-emptiness or digest inequality as explicit hypotheses where
the property needs them). -/

/-- Abstract HMAC function: key (string), message (bytes), digest (bytes). -/
abbrev Hmac := Str → Bytes → Bytes

/-- Model of `signHmacSha256` (crypto.ts lines 44–46): URL-safe base64 of the
HMAC digest over the UTF-8 bytes of `data`. -/
def signHmacSha256 (hmac : Hmac) (data : Str) (secret : Str) : Str :=
  base64UrlEncode (hmac secret (charsToBytes data))

/-- Model of `safeEqual` (crypto.ts lines 48–55): buffer length check, then
`timingSafeEqual`, which decides byte-for-byte equality. -/
def safeEqual (a b : Str) : Bool :=
  if (charsToBytes a).length ≠ (charsToBytes b).length then false
  else decide (charsToBytes a = charsToBytes b)

/-- Model of JavaScript `String.prototype.split` with a one-character
separator: every occurrence splits; empty segments are kept. -/
def splitOnChar (sep : Char) : Str → List Str
  | [] => [[]]
  | c :: rest =>
    match splitOnChar sep rest with
    | [] => [[]]
    | seg :: segs => if c = sep then [] :: seg :: segs else (c :: seg) :: segs

/-- Errors thrown by `verifyOAuthStateToken`, one constructor per `throw`
site (plus the `SyntaxError` a failing `JSON.parse` raises). -/
inductive StateTokenError where
  | malformedToken
  | invalidSignature
  | jsonError
  | malformedPayload
  | stateExpired
deriving DecidableEq, Repr

/-- TTL constant of oauth-state.ts line 10 (`60 * 10` seconds). -/
def STATE_TTL_SECONDS : Nat := 60 * 10

/-- Encoding half of `createOAuthStateToken` (oauth-state.ts lines 25–28):
serialize, URL-safe base64, sign, join with `'.'`. -/
def encodeStatePayload (hmac : Hmac) (secret : Str) (payload : OAuthStatePayload) : Str :=
  let encodedPayload := base64UrlEncode (charsToBytes (stringifyPayload payload))
  encodedPayload ++ ('.' :: signHmacSha256 hmac encodedPayload secret)

/-- Model of `createOAuthStateToken` (oauth-state.ts lines 17–29); the clock
reading (`Math.floor(Date.now() / 1000)`) and the random nonce bytes are
explicit arguments. -/
def createOAuthStateToken (hmac : Hmac) (secret : Str) (nowSec : Nat)
    (nonceBytes : Bytes) : Str :=
  encodeStatePayload hmac secret
    { iat := nowSec, exp := nowSec + STATE_TTL_SECONDS, nonce := base64UrlEncode nonceBytes }

/-- Model of `verifyOAuthStateToken` (oauth-state.ts lines 31–54).  The
destructuring `const [encodedPayload, signature] = token.split(".")` reads
the first two segments only; a missing segment (`undefined`) and an empty
segment are both falsy, so both are collapsed to `[]` before the check. -/
def verifyOAuthStateToken (hmac : Hmac) (secret : Str) (token : Str) (nowSec : Nat) :
    Except StateTokenError OAuthStatePayload :=
  let encodedPayload := ((splitOnChar '.' token).get? 0).getD []
  let signature := ((splitOnChar '.' token).get? 1).getD []
  if encodedPayload = [] ∨ signature = [] then .error .malformedToken
  else if safeEqual signature (signHmacSha256 hmac encodedPayload secret) = false then
    .error .invalidSignature
  else
    match parsePayload (bytesToChars (base64UrlDecode encodedPayload)) with
    | none => .error .jsonError
    | some payload =>
      if payload.exp = 0 ∨ payload.iat = 0 ∨ payload.nonce = [] then
        .error .malformedPayload
      else if payload.exp < nowSec then .error .stateExpired
      else .ok payload

/-! ### Supporting lemmas for the token pipeline -/

theorem safeEqual_self (a : Str) : safeEqual a a = true := by
  simp [safeEqual]

theorem splitOnChar_not_mem (sep : Char) (l : Str) (h : sep ∉ l) :
    splitOnChar sep l = [l] := by
  induction l with
  | nil => rfl
  | cons c rest ih =>
    have hc : c ≠ sep := fun hc => h (by simp [hc])
    have hr := ih (fun hm => h (by simp [hm]))
    simp [splitOnChar, hr, hc]

theorem splitOnChar_append (sep : Char) (xs ys : Str) (hxs : sep ∉ xs) :
    splitOnChar sep (xs ++ sep :: ys) =
      match splitOnChar sep ys with
      | [] => [xs]
      | seg :: segs => xs :: seg :: segs := by
  induction xs with
  | nil =>
    simp only [List.nil_append, splitOnChar]
    cases hys : splitOnChar sep ys with
    | nil => simp
    | cons seg segs => simp
  | cons c rest ih =>
    have hc : c ≠ sep := fun hcc => hxs (by simp [hcc])
    have hr := ih (fun hm => hxs (by simp [hm]))
    rw [List.cons_append]
    show (match splitOnChar sep (rest ++ sep :: ys) with
      | [] => [[]]
      | seg :: segs => if c = sep then [] :: seg :: segs else (c :: seg) :: segs) = _
    rw [hr]
    cases splitOnChar sep ys with
    | nil => simp [hc]
    | cons seg segs => simp [hc]

/-- Splitting the well-formed two-segment token. -/
theorem splitOnChar_token (EP SIG : Str) (hEP : '.' ∉ EP) (hSIG : '.' ∉ SIG) :
    splitOnChar '.' (EP ++ '.' :: SIG) = [EP, SIG] := by
  rw [splitOnChar_append '.' EP SIG hEP, splitOnChar_not_mem '.' SIG hSIG]

theorem bytesToChars_charsToBytes (s : Str) : bytesToChars (charsToBytes s) = s := by
  unfold bytesToChars charsToBytes
  rw [List.map_map]
  calc List.map (Char.ofNat ∘ Char.toNat) s = List.map id s :=
        List.map_congr_left (fun c _ => Char.ofNat_toNat c)
    _ = s := List.map_id s

theorem digitChar_mem (d : Nat) : digitChar d ∈ "0123456789".toList := by
  unfold digitChar
  rw [List.getD_eq_getD_get?]
  rcases h : "0123456789".toList.get? d with _ | c
  · simp only [Option.getD]
    decide
  · simpa [Option.getD] using List.get?_mem h

theorem natChars_toNat_lt (n : Nat) : ∀ c ∈ natChars n, c.toNat < 256 := by
  have hd : ∀ c0 ∈ "0123456789".toList, Char.toNat c0 < 256 := by decide
  induction n using Nat.strong_induction_on with
  | _ n ih =>
    intro c hc
    rw [natChars_eq] at hc
    by_cases h : n < 10
    · rw [if_pos h] at hc
      simp only [List.mem_singleton] at hc
      subst hc
      exact hd _ (digitChar_mem n)
    · rw [if_neg h] at hc
      rcases List.mem_append.mp hc with hc | hc
      · exact ih (n / 10) (by omega) c hc
      · simp only [List.mem_singleton] at hc
        subst hc
        exact hd _ (digitChar_mem (n % 10))

theorem stringifyPayload_toNat_lt (p : OAuthStatePayload)
    (hn : ∀ c ∈ p.nonce, c.toNat < 256) :
    ∀ x ∈ charsToBytes (stringifyPayload p), x < 256 := by
  intro x hx
  simp only [charsToBytes, List.mem_map] at hx
  obtain ⟨c, hc, rfl⟩ := hx
  unfold stringifyPayload at hc
  simp only [List.mem_append] at hc
  have hlit1 : ∀ c0 ∈ ("\x7b\"iat\":".toList : Str), Char.toNat c0 < 256 := by decide
  have hlit2 : ∀ c0 ∈ ((",\"exp\":".toList : Str)), Char.toNat c0 < 256 := by decide
  have hlit3 : ∀ c0 ∈ ((",\"nonce\":\"".toList : Str)), Char.toNat c0 < 256 := by decide
  have hlit4 : ∀ c0 ∈ (("\"\x7d".toList : Str)), Char.toNat c0 < 256 := by decide
  rcases hc with hc | hc | hc | hc | hc | hc | hc
  · exact hlit1 c hc
  · exact natChars_toNat_lt p.iat c hc
  · exact hlit2 c hc
  · exact natChars_toNat_lt p.exp c hc
  · exact hlit3 c hc
  · exact hn c hc
  · exact hlit4 c hc

theorem stringifyPayload_ne_nil (p : OAuthStatePayload) : stringifyPayload p ≠ [] := by
  unfold stringifyPayload
  have e1 : ("\x7b\"iat\":".toList : Str) = '\x7b' :: "\"iat\":".toList := rfl
  rw [e1, List.cons_append]
  simp

theorem charsToBytes_ne_nil (s : Str) (h : s ≠ []) : charsToBytes s ≠ [] := by
  simpa [charsToBytes] using h

/-- Evaluation of `verifyOAuthStateToken` once the split of the token is
known to have exactly two segments. -/
theorem verifyOAuthStateToken_split (hmac : Hmac) (secret token : Str) (nowSec : Nat)
    (EP SIG : Str) (hs : splitOnChar '.' token = [EP, SIG]) :
    verifyOAuthStateToken hmac secret token nowSec =
      if EP = [] ∨ SIG = [] then .error .malformedToken
      else if safeEqual SIG (signHmacSha256 hmac EP secret) = false then
        .error .invalidSignature
      else
        match parsePayload (bytesToChars (base64UrlDecode EP)) with
        | none => .error .jsonError
        | some payload =>
          if payload.exp = 0 ∨ payload.iat = 0 ∨ payload.nonce = [] then
            .error .malformedPayload
          else if payload.exp < nowSec then .error .stateExpired
          else .ok payload := by
  unfold verifyOAuthStateToken
  rw [hs]
  rfl

set_option maxHeartbeats 1000000 in
/-- Central pipeline lemma: verifying an encoded payload under the same
secret reaches the expiry check and returns the payload when unexpired. -/
theorem verify_encode (hmac : Hmac) (secret : Str) (p : OAuthStatePayload) (nowSec : Nat)
    (hiat : p.iat ≠ 0) (hexp : p.exp ≠ 0) (hnonce : p.nonce ≠ [])
    (hnc : ∀ c ∈ p.nonce, c.toNat < 256 ∧ c ≠ '"')
    (hdig : ∀ k m, hmac k m ≠ []) :
    verifyOAuthStateToken hmac secret (encodeStatePayload hmac secret p) nowSec =
      if p.exp < nowSec then .error .stateExpired else .ok p := by
  have hEPsafe := base64UrlEncode_tokenSafe (charsToBytes (stringifyPayload p))
  have hEPdot : '.' ∉ base64UrlEncode (charsToBytes (stringifyPayload p)) := by
    intro hm
    exact (hEPsafe _ hm).2.2.2.2.1 rfl
  have hSIGsafe := base64UrlEncode_tokenSafe
    (hmac secret (charsToBytes (base64UrlEncode (charsToBytes (stringifyPayload p)))))
  have hSIGdot : '.' ∉ signHmacSha256 hmac
      (base64UrlEncode (charsToBytes (stringifyPayload p))) secret := by
    intro hm
    exact (hSIGsafe _ hm).2.2.2.2.1 rfl
  have hEPne : base64UrlEncode (charsToBytes (stringifyPayload p)) ≠ [] :=
    base64UrlEncode_ne_nil _ (charsToBytes_ne_nil _ (stringifyPayload_ne_nil p))
  have hSIGne : signHmacSha256 hmac
      (base64UrlEncode (charsToBytes (stringifyPayload p))) secret ≠ [] :=
    base64UrlEncode_ne_nil _ (hdig _ _)
  have hsplit : splitOnChar '.' (encodeStatePayload hmac secret p) =
      [base64UrlEncode (charsToBytes (stringifyPayload p)),
        signHmacSha256 hmac (base64UrlEncode (charsToBytes (stringifyPayload p))) secret] := by
    show splitOnChar '.' (base64UrlEncode (charsToBytes (stringifyPayload p)) ++
      '.' :: signHmacSha256 hmac (base64UrlEncode (charsToBytes (stringifyPayload p))) secret) = _
    exact splitOnChar_token _ _ hEPdot hSIGdot
  rw [verifyOAuthStateToken_split hmac secret _ nowSec _ _ hsplit]
  rw [if_neg (by push_neg; exact ⟨hEPne, hSIGne⟩)]
  rw [if_neg (by simp [safeEqual_self])]
  rw [base64UrlDecode_encode _ (stringifyPayload_toNat_lt p (fun c hc => (hnc c hc).1)),
    bytesToChars_charsToBytes,
    parsePayload_stringify p (fun c hc => (hnc c hc).2)]
  show (if p.exp = 0 ∨ p.iat = 0 ∨ p.nonce = [] then Except.error StateTokenError.malformedPayload
    else if p.exp < nowSec then Except.error StateTokenError.stateExpired else Except.ok p) = _
  rw [if_neg (by push_neg; exact ⟨hexp, hiat, hnonce⟩)]

/-- Concrete digest function used to build witnesses and counterexamples. -/
def hmacConst : Hmac := fun _ _ => [7]

/-- A well-formed signed token with an extra `".x"` segment appended, so its
split has three segments. -/
def tokenWithExtraSegment : Str :=
  encodeStatePayload hmacConst [] ⟨1, 700, ['A']⟩ ++ ('.' :: ['x'])

/-- C7: for every payload with all required fields present (and truthy), a
nonce of printable ASCII free of quote and backslash, and an expiry not in
the past, decoding and verifying the encoding of the payload under the same
secret succeeds and returns the payload. -/
theorem c7_encode_decode_roundtrip (hmac : Hmac) (secret : Str) (p : OAuthStatePayload)
    (nowSec : Nat)
    (hiat : p.iat ≠ 0) (hexp : p.exp ≠ 0) (hnonce : p.nonce ≠ [])
    (hnc : ∀ c ∈ p.nonce, 32 ≤ c.toNat ∧ c.toNat < 127 ∧ c ≠ '"' ∧ c ≠ '\\')
    (hfresh : nowSec ≤ p.exp)
    (hdig : ∀ k m, hmac k m ≠ []) :
    verifyOAuthStateToken hmac secret (encodeStatePayload hmac secret p) nowSec = .ok p := by
  rw [verify_encode hmac secret p nowSec hiat hexp hnonce
    (fun c hc => ⟨by have := (hnc c hc).2.1; omega, (hnc c hc).2.2.1⟩) hdig]
  rw [if_neg (by omega)]

/-- Witness for C7 at a concrete payload, secret and digest function. -/
theorem c7_encode_decode_roundtrip_witness :
    verifyOAuthStateToken hmacConst [] (encodeStatePayload hmacConst [] ⟨5, 700, ['A']⟩) 600 =
      .ok ⟨5, 700, ['A']⟩ :=
  c7_encode_decode_roundtrip hmacConst [] ⟨5, 700, ['A']⟩ 600 (by decide) (by decide)
    (by decide) (by decide) (by decide) (fun k m => by simp [hmacConst])

/-- C6: the token minted at time `t` carries expiry `t + 600`; verification
accepts it at every time up to and including the expiry (so in particular at
`t + 599`) and fails with `StateExpired` at every later time (so in
particular at `t + 601`). -/
theorem c6_state_ttl_boundary (hmac : Hmac) (secret : Str) (t : Nat) (nonceBytes : Bytes)
    (ht : 0 < t) (hnb : nonceBytes ≠ []) (hdig : ∀ k m, hmac k m ≠ []) (now : Nat) :
    (now ≤ t + 600 →
      verifyOAuthStateToken hmac secret (createOAuthStateToken hmac secret t nonceBytes) now =
        .ok ⟨t, t + 600, base64UrlEncode nonceBytes⟩) ∧
    (t + 600 < now →
      verifyOAuthStateToken hmac secret (createOAuthStateToken hmac secret t nonceBytes) now =
        .error .stateExpired) := by
  have hunfold : createOAuthStateToken hmac secret t nonceBytes =
      encodeStatePayload hmac secret ⟨t, t + 600, base64UrlEncode nonceBytes⟩ := by
    unfold createOAuthStateToken STATE_TTL_SECONDS
    rfl
  have hv := verify_encode hmac secret ⟨t, t + 600, base64UrlEncode nonceBytes⟩ now
    (by show t ≠ 0; omega) (by show t + 600 ≠ 0; omega)
    (by show base64UrlEncode nonceBytes ≠ []; exact base64UrlEncode_ne_nil _ hnb)
    (fun c hc => ⟨by have := (base64UrlEncode_tokenSafe nonceBytes c hc).2.1; omega,
      (base64UrlEncode_tokenSafe nonceBytes c hc).2.2.1⟩) hdig
  have hexp_eq : (⟨t, t + 600, base64UrlEncode nonceBytes⟩ : OAuthStatePayload).exp =
      t + 600 := rfl
  rw [hexp_eq] at hv
  constructor
  · intro hle
    rw [hunfold, hv, if_neg (by omega)]
  · intro hgt
    rw [hunfold, hv, if_pos (by omega)]

/-- Witness for C6 at concrete mint time 100 and verification time 700. -/
theorem c6_state_ttl_boundary_witness :
    verifyOAuthStateToken hmacConst [] (createOAuthStateToken hmacConst [] 100 [1, 2, 3]) 700 =
      .ok ⟨100, 700, base64UrlEncode [1, 2, 3]⟩ :=
  (c6_state_ttl_boundary hmacConst [] 100 [1, 2, 3] (by omega) (by decide)
    (fun k m => by simp [hmacConst]) 700).1 (by omega)

/-- C2 counterexample: a token whose split yields three segments is not
rejected with `MalformedToken`; it verifies successfully, because the code
reads only the first two segments of the split. -/
theorem c2_counterexample :
    (splitOnChar '.' tokenWithExtraSegment).length = 3 ∧
    verifyOAuthStateToken hmacConst [] tokenWithExtraSegment 0 = .ok ⟨1, 700, ['A']⟩ :=
  ⟨rfl, rfl⟩

/-- C2 (amended): verification reads only the first two `'.'`-separated
segments of the token and fails with `MalformedToken` exactly when the first
or the second segment is empty or missing; segments after the second are
ignored rather than treated as malformed. -/
theorem c2_malformed_token_iff (hmac : Hmac) (secret : Str) (token : Str) (nowSec : Nat) :
    verifyOAuthStateToken hmac secret token nowSec = .error .malformedToken ↔
      ((splitOnChar '.' token).get? 0).getD [] = [] ∨
      ((splitOnChar '.' token).get? 1).getD [] = [] := by
  unfold verifyOAuthStateToken
  by_cases h : ((splitOnChar '.' token).get? 0).getD [] = [] ∨
      ((splitOnChar '.' token).get? 1).getD [] = []
  · simp only [if_pos h]
    exact ⟨fun _ => h, fun _ => True.intro⟩
  · simp only [if_neg h]
    constructor
    · intro hcon
      exfalso
      revert hcon
      split
      · simp
      · split
        · simp
        · split
          · simp
          · split
            · simp
            · simp
    · intro hh
      exact absurd hh h


/-! ### Model of `src/src/lib/webhook.ts` -/

/-- Model of `computeWebhookSignature` (webhook.ts lines 9–11): standard
(padded) base64 of the HMAC-SHA256 digest of the raw body bytes under the
provider client secret. -/
def computeWebhookSignature (hmac : Hmac) (secret : Str) (rawBody : Bytes) : Str :=
  encB64 (hmac secret rawBody)

/-- Model of `verifyWebhookSignature` (webhook.ts lines 13–25): a missing
(`null`) or empty header is falsy and returns `false` at once; otherwise the
expected signature is recomputed and the two UTF-8 buffers are compared —
unequal lengths short-circuit to `false`, equal lengths go through
`timingSafeEqual`, which decides byte-for-byte equality. -/
def verifyWebhookSignature (hmac : Hmac) (secret : Str) (rawBody : Bytes)
    (providedSignature : Option Str) : Bool :=
  match providedSignature with
  | none => false
  | some sig =>
    if sig = [] then false
    else
      if (charsToBytes (computeWebhookSignature hmac secret rawBody)).length ≠
          (charsToBytes sig).length then false
      else decide (charsToBytes (computeWebhookSignature hmac secret rawBody) = charsToBytes sig)

theorem charsToBytes_inj (a b : Str) (h : charsToBytes a = charsToBytes b) : a = b := by
  have := congrArg bytesToChars h
  rwa [bytesToChars_charsToBytes, bytesToChars_charsToBytes] at this

/-- Identity digest function, used to instantiate witnesses that need two
inputs with different digests. -/
def hmacId : Hmac := fun _ m => m

/-- C9: the signature check accepts the true signature of the raw body;
any body whose digest differs (in particular a body with a flipped byte,
whose HMAC-SHA256 digest differs) is rejected against that signature; and a
provided signature whose buffer length differs from the expected one is
rejected by the length short-circuit before any byte comparison. -/
theorem c9_webhook_signature_correct (hmac : Hmac) (secret : Str) (rawBody altBody : Bytes)
    (hne : hmac secret rawBody ≠ hmac secret altBody)
    (hb1 : ∀ x ∈ hmac secret rawBody, x < 256)
    (hb2 : ∀ x ∈ hmac secret altBody, x < 256)
    (hnn : hmac secret rawBody ≠ []) :
    verifyWebhookSignature hmac secret rawBody
        (some (computeWebhookSignature hmac secret rawBody)) = true ∧
    verifyWebhookSignature hmac secret altBody
        (some (computeWebhookSignature hmac secret rawBody)) = false ∧
    (∀ sig : Str, sig ≠ [] →
      (charsToBytes (computeWebhookSignature hmac secret altBody)).length ≠
        (charsToBytes sig).length →
      verifyWebhookSignature hmac secret altBody (some sig) = false) := by
  refine ⟨?_, ?_, ?_⟩
  · simp only [verifyWebhookSignature]
    rw [if_neg (show computeWebhookSignature hmac secret rawBody ≠ [] from
      encB64_ne_nil _ hnn)]
    rw [if_neg (by simp)]
    simp
  · have hsig_ne : charsToBytes (computeWebhookSignature hmac secret altBody) ≠
        charsToBytes (computeWebhookSignature hmac secret rawBody) := by
      intro he
      have hinj := charsToBytes_inj _ _ he
      unfold computeWebhookSignature at hinj
      exact hne (encB64_inj _ _ hb2 hb1 hinj).symm
    simp only [verifyWebhookSignature]
    by_cases hs0 : computeWebhookSignature hmac secret rawBody = []
    · rw [if_pos hs0]
    · rw [if_neg hs0]
      by_cases hl : (charsToBytes (computeWebhookSignature hmac secret altBody)).length ≠
          (charsToBytes (computeWebhookSignature hmac secret rawBody)).length
      · rw [if_pos hl]
      · rw [if_neg hl]
        simp only [decide_eq_false_iff_not]
        exact hsig_ne
  · intro sig hsig hlen
    simp only [verifyWebhookSignature]
    rw [if_neg hsig, if_pos hlen]

/-- Witness for C9 with the identity digest function and one-byte bodies. -/
theorem c9_webhook_signature_correct_witness :
    verifyWebhookSignature hmacId [] [0] (some (computeWebhookSignature hmacId [] [0])) = true ∧
    verifyWebhookSignature hmacId [] [1] (some (computeWebhookSignature hmacId [] [0])) = false ∧
    verifyWebhookSignature hmacId [] [1] (some ['x', 'y']) = false :=
  ⟨(c9_webhook_signature_correct hmacId [] [0] [1] (by decide) (by decide) (by decide)
      (by decide)).1,
    (c9_webhook_signature_correct hmacId [] [0] [1] (by decide) (by decide) (by decide)
      (by decide)).2.1,
    (c9_webhook_signature_correct hmacId [] [0] [1] (by decide) (by decide) (by decide)
      (by decide)).2.2 ['x', 'y'] (by decide) (by decide)⟩


/-! ### Model of `src/src/lib/token.ts`

The Prisma store is threaded explicitly as the per-connection slice the
refresh flow touches; the provider interaction (`fetch` plus
`response.json()`) is a single explicit outcome value. -/

/-- Constant `REFRESH_WINDOW_MS` (token.ts line 5). -/
def REFRESH_WINDOW_MS : Int := 2 * 60 * 1000

/-- Prisma `Token` row for one connection. -/
structure TokenRecord where
  accessToken : Str
  refreshToken : Str
  expiresAt : Int
  scopes : List Str
deriving DecidableEq, Repr

/-- Slice of the database the refresh flow can touch: the Token row and the
Connection's `lastRefreshedAt` column. -/
structure CredStore where
  token : Option TokenRecord
  lastRefreshedAt : Option Int
deriving DecidableEq, Repr

/-- Parsed body of the provider's token-endpoint response
(`TokenRefreshResponse`); fields the provider may omit are `Option`. -/
structure RefreshBody where
  access_token : Option Str
  refresh_token : Option Str
  expires_in : Int
  scope : Option Str
deriving DecidableEq, Repr

/-- Outcome of `fetch` plus `response.json()`: the network call can throw,
the JSON decode can throw, or an HTTP response (ok flag, parsed body)
arrives. -/
inductive FetchOutcome where
  | networkError
  | jsonDecodeError
  | response (ok : Bool) (body : RefreshBody)
deriving DecidableEq, Repr

/-- The two errors `getValidAccessToken`/`refreshAccessToken` can throw. -/
inductive TokenError where
  | notFound
  | refreshFailed
deriving DecidableEq, Repr

/-- Model of `body.scope.split(" ").filter(Boolean)` (token.ts line 71). -/
def splitScopes (s : Str) : List Str := (splitOnChar ' ' s).filter (fun seg => !seg.isEmpty)

/-- Model of `refreshAccessToken` (token.ts lines 37–91): look up the row,
call the provider, throw `RefreshFailed` on network error, JSON error,
non-ok status or missing/empty access token — all before any write — and on
success overwrite the Token row and the Connection timestamp. -/
def refreshAccessToken (st : CredStore) (fetch : FetchOutcome) (nowMs : Int)
    (refreshTokenArg : Str) : CredStore × Except TokenError TokenRecord :=
  match st.token with
  | none => (st, .error .notFound)
  | some existing =>
    match fetch with
    | .networkError => (st, .error .refreshFailed)
    | .jsonDecodeError => (st, .error .refreshFailed)
    | .response ok body =>
      match body.access_token with
      | none => (st, .error .refreshFailed)
      | some at_ =>
        if ok = false ∨ at_ = [] then (st, .error .refreshFailed)
        else
          let updatedToken : TokenRecord :=
            { accessToken := at_
              refreshToken := body.refresh_token.getD refreshTokenArg
              expiresAt := nowMs + body.expires_in * 1000
              scopes :=
                match body.scope with
                | some sc => if sc ≠ [] then splitScopes sc else existing.scopes
                | none => existing.scopes }
          ({ token := some updatedToken, lastRefreshedAt := some nowMs }, .ok updatedToken)

/-- Model of `shouldRefresh` (token.ts lines 15–18). -/
def shouldRefresh (expiresAt : Int) (nowMs : Int) : Bool :=
  expiresAt - nowMs ≤ REFRESH_WINDOW_MS

/-- Model of `getValidAccessToken` (token.ts lines 20–35): return the cached
access token outside the refresh window, otherwise refresh first and return
the refreshed token (errors propagate). -/
def getValidAccessToken (st : CredStore) (nowMs : Int) (fetch : FetchOutcome) :
    CredStore × Except TokenError Str :=
  match st.token with
  | none => (st, .error .notFound)
  | some tokenRecord =>
    if shouldRefresh tokenRecord.expiresAt nowMs = false then
      (st, .ok tokenRecord.accessToken)
    else
      match refreshAccessToken st fetch nowMs tokenRecord.refreshToken with
      | (st2, .ok refreshed) => (st2, .ok refreshed.accessToken)
      | (st2, .error e) => (st2, .error e)

/-- C4: with a stored credential the cached access token is returned —
independently of any provider interaction — exactly when more than the
120-second refresh window remains before expiry, and inside the window
(boundary included) the result and the store are exactly those of the
refresh call; in particular 119 s remaining triggers the refresh path and
121 s remaining returns the cached token with the store untouched. -/
theorem c4_refresh_window (st : CredStore) (tok : TokenRecord) (nowMs : Int)
    (fetch : FetchOutcome) (hst : st.token = some tok) :
    (120000 < tok.expiresAt - nowMs →
      getValidAccessToken st nowMs fetch = (st, .ok tok.accessToken)) ∧
    (tok.expiresAt - nowMs ≤ 120000 →
      getValidAccessToken st nowMs fetch =
        ((refreshAccessToken st fetch nowMs tok.refreshToken).1,
          (refreshAccessToken st fetch nowMs tok.refreshToken).2.map (·.accessToken))) ∧
    (tok.expiresAt = nowMs + 119000 →
      getValidAccessToken st nowMs fetch =
        ((refreshAccessToken st fetch nowMs tok.refreshToken).1,
          (refreshAccessToken st fetch nowMs tok.refreshToken).2.map (·.accessToken))) ∧
    (tok.expiresAt = nowMs + 121000 →
      getValidAccessToken st nowMs fetch = (st, .ok tok.accessToken)) := by
  have hcached : 120000 < tok.expiresAt - nowMs →
      getValidAccessToken st nowMs fetch = (st, .ok tok.accessToken) := by
    intro hgt
    simp only [getValidAccessToken, hst]
    rw [if_pos (by
      simp only [shouldRefresh, REFRESH_WINDOW_MS, decide_eq_false_iff_not]
      omega)]
  have hrefresh : tok.expiresAt - nowMs ≤ 120000 →
      getValidAccessToken st nowMs fetch =
        ((refreshAccessToken st fetch nowMs tok.refreshToken).1,
          (refreshAccessToken st fetch nowMs tok.refreshToken).2.map (·.accessToken)) := by
    intro hle
    simp only [getValidAccessToken, hst]
    rw [if_neg (by
      simp only [shouldRefresh, REFRESH_WINDOW_MS]
      simp only [decide_eq_false_iff_not]
      omega)]
    rcases hres : refreshAccessToken st fetch nowMs tok.refreshToken with ⟨st2, r2⟩
    cases r2 with
    | ok refreshed => simp [Except.map]
    | error e => simp [Except.map]
  exact ⟨hcached, hrefresh,
    fun he => hrefresh (by omega),
    fun he => hcached (by omega)⟩

/-- Witness for C4: a credential with plenty of validity left is returned
from cache even when the provider is unreachable. -/
theorem c4_refresh_window_witness :
    getValidAccessToken ⟨some ⟨['a'], ['r'], 500000, []⟩, none⟩ 0 .networkError =
      (⟨some ⟨['a'], ['r'], 500000, []⟩, none⟩, .ok ['a']) :=
  (c4_refresh_window ⟨some ⟨['a'], ['r'], 500000, []⟩, none⟩ ⟨['a'], ['r'], 500000, []⟩ 0
    .networkError rfl).1 (by decide)

/-- C5: every failing refresh attempt — network error, JSON decode error,
non-ok HTTP status, or missing/empty access token in the body — throws
`RefreshFailed` and leaves the store slice (Token row and Connection
timestamp) exactly as it was: no partial writes. -/
theorem c5_refresh_failure_no_partial_writes (st : CredStore) (tok : TokenRecord)
    (fetch : FetchOutcome) (nowMs : Int) (rta : Str) (hst : st.token = some tok)
    (hfail : fetch = .networkError ∨ fetch = .jsonDecodeError ∨
      (∃ body, fetch = .response false body) ∨
      (∃ ok body, fetch = .response ok body ∧
        (body.access_token = none ∨ body.access_token = some []))) :
    refreshAccessToken st fetch nowMs rta = (st, .error .refreshFailed) := by
  rcases hfail with rfl | rfl | ⟨body, rfl⟩ | ⟨ok, body, rfl, hopt⟩
  · simp [refreshAccessToken, hst]
  · simp [refreshAccessToken, hst]
  · simp only [refreshAccessToken, hst]
    cases hat : body.access_token with
    | none => rfl
    | some at_ => simp
  · simp only [refreshAccessToken, hst]
    rcases hopt with hnone | hempty
    · rw [hnone]
    · rw [hempty]
      simp

/-- Witness for C5: a network error leaves a concrete store untouched. -/
theorem c5_refresh_failure_no_partial_writes_witness :
    refreshAccessToken ⟨some ⟨['a'], ['r'], 0, [['s']]⟩, none⟩ .networkError 7 ['r'] =
      (⟨some ⟨['a'], ['r'], 0, [['s']]⟩, none⟩, .error .refreshFailed) :=
  c5_refresh_failure_no_partial_writes ⟨some ⟨['a'], ['r'], 0, [['s']]⟩, none⟩
    ⟨['a'], ['r'], 0, [['s']]⟩ .networkError 7 ['r'] rfl (Or.inl rfl)

/-- C8 counterexample: the provider's response carries a scope string (the
empty string), yet the stored scope set is preserved (`[['s']]`) instead of
being replaced by the space-split of that string (which is `[]`): the
replacement condition is truthiness, not presence, of the scope string. -/
theorem c8_counterexample :
    ((refreshAccessToken ⟨some ⟨['a'], ['r'], 0, [['s']]⟩, none⟩
        (.response true ⟨some ['t'], none, 60, some []⟩) 0 ['r']).2.map
          TokenRecord.scopes) = .ok [['s']] ∧
    splitScopes [] = [] ∧ ([['s']] : List Str) ≠ [] :=
  ⟨rfl, rfl, by simp⟩

/-- C8 (amended): on a successful refresh the new absolute expiry is
`now + expires_in` seconds; the new refresh token is the provider's when one
is issued and the previous one otherwise (`??`); and the scope set is
replaced by the space-split of the provider's scope string exactly when that
string is present and non-empty, and preserved unchanged otherwise (absent
or empty string). -/
theorem c8_refresh_success_fields (st : CredStore) (tok : TokenRecord) (nowMs : Int)
    (rta : Str) (ok : Bool) (body : RefreshBody) (at_ : Str)
    (hst : st.token = some tok) (hok : ok = true)
    (hat : body.access_token = some at_) (hat_ne : at_ ≠ []) :
    ∃ updated : TokenRecord,
      refreshAccessToken st (.response ok body) nowMs rta =
        ({ token := some updated, lastRefreshedAt := some nowMs }, .ok updated) ∧
      updated.accessToken = at_ ∧
      updated.expiresAt = nowMs + body.expires_in * 1000 ∧
      updated.refreshToken = body.refresh_token.getD rta ∧
      (body.scope = none → updated.scopes = tok.scopes) ∧
      (body.scope = some [] → updated.scopes = tok.scopes) ∧
      (∀ sc, body.scope = some sc → sc ≠ [] → updated.scopes = splitScopes sc) := by
  subst hok
  simp only [refreshAccessToken, hst, hat]
  rw [if_neg (by simp [hat_ne])]
  refine ⟨_, rfl, rfl, rfl, rfl, ?_, ?_, ?_⟩
  · intro hsc
    simp [hsc]
  · intro hsc
    simp [hsc]
  · intro sc hsc hne
    simp [hsc, hne]

/-- Witness for C8 at a concrete store and response. -/
theorem c8_refresh_success_fields_witness :
    (refreshAccessToken ⟨some ⟨['a'], ['r'], 0, [['s']]⟩, none⟩
        (.response true ⟨some ['t'], some ['n'], 60, some ['q']⟩) 5 ['r']).1.lastRefreshedAt =
      some 5 := by
  obtain ⟨u, he, -, -, -, -, -, -⟩ := c8_refresh_success_fields
    ⟨some ⟨['a'], ['r'], 0, [['s']]⟩, none⟩ ⟨['a'], ['r'], 0, [['s']]⟩ 5 ['r'] true
    ⟨some ['t'], some ['n'], 60, some ['q']⟩ ['t'] rfl rfl rfl (by simp)
  rw [he]


/-! ### Model of `src/src/app/webhooks/jobber/route.ts`

The Prisma store is explicit state; the two `await prisma...create` calls in
the `try` block are sequential writes, each of which the database may also
fail with a generic error (the `catch` turns any non-P2002 error into a
500).  That possibility is the `DbFault` oracle. -/

/-- View of the parsed JSON payload at the granularity the handler reads it:
a field is present exactly when the original object carries it as a string
(the `typeof x === "string"` checks). -/
structure JsonObj where
  id? : Option Str
  eventId? : Option Str
  topic? : Option Str
  connectionId? : Option Str
deriving DecidableEq, Repr

/-- Prisma `WebhookEvent` row as the handler creates it. -/
structure WebhookEvent where
  id : Nat
  externalId : Option Str
  payloadHash : Str
  topic : Option Str
  connectionId : Option Str
  rawPayload : JsonObj
deriving DecidableEq, Repr

/-- Job status enum; the handler only ever writes `PENDING`. -/
inductive JobStatus where
  | PENDING
deriving DecidableEq, Repr

/-- Prisma `Job` row as the handler creates it. -/
structure Job where
  id : Nat
  webhookEventId : Nat
  status : JobStatus
deriving DecidableEq, Repr

/-- Modelled from the spec: `prisma/schema.prisma` is not under `src/`.  Per
the spec, "the pair (external identifier, content hash) is unique — a
uniqueness constraint enforces at-most-once persistence", so an insert whose
(externalId, payloadHash) pair is already stored raises Prisma P2002.  The
store keeps both tables plus fresh row ids. -/
structure Store where
  events : List WebhookEvent
  jobs : List Job
  nextEventId : Nat
  nextJobId : Nat
deriving DecidableEq, Repr

/-- The empty store. -/
def store0 : Store := ⟨[], [], 0, 0⟩

/-- One inbound webhook request: raw body bytes and the value of the
`X-Jobber-Hmac-SHA256` header (`none` when absent). -/
structure WebhookRequest where
  rawBody : Bytes
  signature : Option Str
deriving DecidableEq, Repr

/-- Platform functions the handler closes over: HMAC-SHA256 for signature
verification, SHA-256 hex for the content hash (`payloadSha256`),
`JSON.parse` at the granularity the handler reads the payload, and the
provider client secret. -/
structure RoutePrims where
  hmac : Hmac
  payloadSha256 : Bytes → Str
  parseJson : Bytes → Option JsonObj
  secret : Str

/-- Fault oracle for the two Prisma writes inside the `try` block: a write
the uniqueness constraint would accept can still fail with a generic
database error, which the `catch` answers with a 500. -/
inductive DbFault where
  | noFault
  | failEventCreate
  | failJobCreate
deriving DecidableEq, Repr

/-- Handler responses, one constructor per `NextResponse.json` site. -/
inductive WebhookResponse where
  | okFresh
  | okDeduped
  | invalidSignature
  | invalidJson
  | persistenceFailed
deriving DecidableEq, Repr

/-- HTTP status of each response. -/
def WebhookResponse.status : WebhookResponse → Nat
  | .okFresh => 200
  | .okDeduped => 200
  | .invalidSignature => 401
  | .invalidJson => 400
  | .persistenceFailed => 500

/-- Whether the response body carries `deduped: true`. -/
def WebhookResponse.deduped : WebhookResponse → Bool
  | .okDeduped => true
  | _ => false

/-- Model of `maybeConnectionIdFromPayload` (route.ts lines 8–15). -/
def maybeConnectionIdFromPayload (payload : JsonObj) : Option Str :=
  match payload.connectionId? with
  | some candidate => if candidate.length > 0 then some candidate else none
  | none => none

/-- Model of the handler `POST` (route.ts lines 17–80): verify the raw-body
signature (401 on failure), parse JSON (400 on failure), extract external id
(`payload.id`, else `payload.eventId`), hash the raw body, then — inside the
`try` — create the WebhookEvent and afterwards its Job.  A duplicate
(externalId, payloadHash) pair raises P2002 at the event insert, answered
200 deduped with nothing written; any other write failure is answered 500;
on success both rows exist and the answer is a fresh 200. -/
def POST (prims : RoutePrims) (fault : DbFault) (st : Store) (req : WebhookRequest) :
    Store × WebhookResponse :=
  if verifyWebhookSignature prims.hmac prims.secret req.rawBody req.signature = false then
    (st, .invalidSignature)
  else
    match prims.parseJson req.rawBody with
    | none => (st, .invalidJson)
    | some payload =>
      let externalId : Option Str :=
        match payload.id? with
        | some s => some s
        | none => payload.eventId?
      let hash := prims.payloadSha256 req.rawBody
      let topic := payload.topic?
      let connectionId := maybeConnectionIdFromPayload payload
      if st.events.any (fun e => decide (e.externalId = externalId ∧ e.payloadHash = hash)) then
        (st, .okDeduped)
      else if fault = .failEventCreate then (st, .persistenceFailed)
      else
        let ev : WebhookEvent :=
          { id := st.nextEventId, externalId := externalId, payloadHash := hash,
            topic := topic, connectionId := connectionId, rawPayload := payload }
        let st1 : Store :=
          { st with events := st.events ++ [ev], nextEventId := st.nextEventId + 1 }
        if fault = .failJobCreate then (st1, .persistenceFailed)
        else
          let jb : Job := { id := st1.nextJobId, webhookEventId := ev.id, status := .PENDING }
          ({ st1 with jobs := st1.jobs ++ [jb], nextJobId := st1.nextJobId + 1 }, .okFresh)

/-- Stores reachable from the empty store through the webhook handler, under
arbitrary requests and database faults. -/
inductive Reachable (prims : RoutePrims) : Store → Prop where
  | init : Reachable prims store0
  | step (st : Store) (fault : DbFault) (req : WebhookRequest) :
      Reachable prims st → Reachable prims (POST prims fault st req).1

/-- Concrete primitives for witnesses: constant digest, constant hash, and a
parser accepting every body as the empty object. -/
def prims0 : RoutePrims :=
  ⟨hmacConst, fun _ => ['h'], fun _ => some ⟨none, none, none, none⟩, []⟩

/-- Concrete request carrying the valid signature of its (empty) body. -/
def req0 : WebhookRequest := ⟨[], some (computeWebhookSignature hmacConst [] [])⟩

/-- C10: with the signature header absent the verification returns false (a
total function: no exception), and the handler rejects the request with 401,
leaving the store untouched, whatever the request body or fault. -/
theorem c10_missing_signature_rejected (prims : RoutePrims) (fault : DbFault) (st : Store)
    (raw : Bytes) :
    verifyWebhookSignature prims.hmac prims.secret raw none = false ∧
    POST prims fault st ⟨raw, none⟩ = (st, .invalidSignature) ∧
    WebhookResponse.status .invalidSignature = 401 := by
  refine ⟨rfl, ?_, rfl⟩
  simp [POST, verifyWebhookSignature]

/-- C1 counterexample: one authenticated, well-parsed request whose Job
insert fails leaves a reachable store with a persisted WebhookEvent and no
Job at all, while the handler answers 500: the event and its Job are not
persisted as a single transactional unit. -/
theorem c1_counterexample :
    Reachable prims0 (POST prims0 .failJobCreate store0 req0).1 ∧
    (POST prims0 .failJobCreate store0 req0).1.events ≠ [] ∧
    (POST prims0 .failJobCreate store0 req0).1.jobs = [] ∧
    (POST prims0 .failJobCreate store0 req0).2 = .persistenceFailed :=
  ⟨Reachable.step store0 .failJobCreate req0 Reachable.init, by decide, by decide, by decide⟩

/-- Write behaviour of one accepted fresh request: fault-free both rows are
added; a failing Job insert leaves the event added and the Job table
unchanged, answered 500. -/
theorem POST_writes (prims : RoutePrims) (st : Store) (req : WebhookRequest)
    (payload : JsonObj)
    (hsig : verifyWebhookSignature prims.hmac prims.secret req.rawBody req.signature = true)
    (hparse : prims.parseJson req.rawBody = some payload)
    (hfresh : st.events.any (fun e => decide (e.externalId = (match payload.id? with
        | some s => some s
        | none => payload.eventId?) ∧
      e.payloadHash = prims.payloadSha256 req.rawBody)) = false) :
    ((POST prims .noFault st req).1.events.length = st.events.length + 1 ∧
      (POST prims .noFault st req).1.jobs.length = st.jobs.length + 1 ∧
      (POST prims .noFault st req).2 = .okFresh) ∧
    ((POST prims .failJobCreate st req).1.events.length = st.events.length + 1 ∧
      (POST prims .failJobCreate st req).1.jobs = st.jobs ∧
      (POST prims .failJobCreate st req).2 = .persistenceFailed) := by
  constructor
  · simp only [POST, hparse]
    rw [if_neg (by simp [hsig]), if_neg (by rw [hfresh]; simp), if_neg (by decide),
      if_neg (by decide)]
    simp
  · simp only [POST, hparse]
    rw [if_neg (by simp [hsig]), if_neg (by rw [hfresh]; simp), if_neg (by decide)]
    simp

/-- C1 (amended): the WebhookEvent and its Job are written by two sequential
database operations, not one transactional unit.  Fault-free, an accepted
fresh request persists exactly one new event and one new job; but when the
Job insert fails after the event insert, the handler answers 500 with the
event already persisted and the Job table unchanged. -/
theorem c1_sequential_writes (prims : RoutePrims) (st : Store) (req : WebhookRequest)
    (payload : JsonObj)
    (hsig : verifyWebhookSignature prims.hmac prims.secret req.rawBody req.signature = true)
    (hparse : prims.parseJson req.rawBody = some payload)
    (hfresh : st.events.any (fun e => decide (e.externalId = (match payload.id? with
        | some s => some s
        | none => payload.eventId?) ∧
      e.payloadHash = prims.payloadSha256 req.rawBody)) = false) :
    ((POST prims .noFault st req).1.events.length = st.events.length + 1 ∧
      (POST prims .noFault st req).1.jobs.length = st.jobs.length + 1 ∧
      (POST prims .noFault st req).2 = .okFresh) ∧
    ((POST prims .failJobCreate st req).1.events.length = st.events.length + 1 ∧
      (POST prims .failJobCreate st req).1.jobs = st.jobs ∧
      (POST prims .failJobCreate st req).2 = .persistenceFailed) :=
  POST_writes prims st req payload hsig hparse hfresh

/-- Witness for C1's amended statement at the concrete primitives. -/
theorem c1_sequential_writes_witness :
    (POST prims0 .failJobCreate store0 req0).1.jobs = store0.jobs ∧
    (POST prims0 .failJobCreate store0 req0).2 = .persistenceFailed :=
  ⟨(c1_sequential_writes prims0 store0 req0 ⟨none, none, none, none⟩ (by decide) rfl
      rfl).2.2.1,
    (c1_sequential_writes prims0 store0 req0 ⟨none, none, none, none⟩ (by decide) rfl
      rfl).2.2.2⟩

/-- C3: submitting the same raw body twice with a valid signature and no
database fault persists exactly one WebhookEvent and one Job: the first call
answers a fresh 200 after adding one row to each table, and the second call
hits the uniqueness constraint, answers 200 with deduped:true, and changes
nothing. -/
theorem c3_idempotent_duplicate_delivery (prims : RoutePrims) (st : Store)
    (req : WebhookRequest) (payload : JsonObj)
    (hsig : verifyWebhookSignature prims.hmac prims.secret req.rawBody req.signature = true)
    (hparse : prims.parseJson req.rawBody = some payload)
    (hfresh : st.events.any (fun e => decide (e.externalId = (match payload.id? with
        | some s => some s
        | none => payload.eventId?) ∧
      e.payloadHash = prims.payloadSha256 req.rawBody)) = false) :
    (POST prims .noFault st req).2 = .okFresh ∧
    (POST prims .noFault st req).1.events.length = st.events.length + 1 ∧
    (POST prims .noFault st req).1.jobs.length = st.jobs.length + 1 ∧
    POST prims .noFault (POST prims .noFault st req).1 req =
      ((POST prims .noFault st req).1, .okDeduped) ∧
    WebhookResponse.status .okDeduped = 200 ∧
    WebhookResponse.deduped .okDeduped = true := by
  have hfirst := (POST_writes prims st req payload hsig hparse hfresh).1
  have hcall1 : POST prims .noFault st req =
      (Store.mk
        (st.events ++ [WebhookEvent.mk st.nextEventId
          (match payload.id? with
            | some s => some s
            | none => payload.eventId?)
          (prims.payloadSha256 req.rawBody) payload.topic?
          (maybeConnectionIdFromPayload payload) payload])
        (st.jobs ++ [Job.mk st.nextJobId st.nextEventId JobStatus.PENDING])
        (st.nextEventId + 1) (st.nextJobId + 1), .okFresh) := by
    simp only [POST, hparse]
    rw [if_neg (by simp [hsig]), if_neg (by rw [hfresh]; simp), if_neg (by decide),
      if_neg (by decide)]
  refine ⟨hfirst.2.2, hfirst.1, hfirst.2.1, ?_, rfl, rfl⟩
  rw [hcall1]
  simp only [POST, hparse]
  rw [if_neg (by simp [hsig])]
  rw [if_pos (by
    simp only [List.any_append, List.any_cons, List.any_nil, Bool.or_eq_true,
      Bool.or_false, decide_eq_true_eq]
    simp)]

/-- Witness for C3 at the concrete primitives: the duplicate delivery is
answered deduped with the store unchanged. -/
theorem c3_idempotent_duplicate_delivery_witness :
    POST prims0 .noFault (POST prims0 .noFault store0 req0).1 req0 =
      ((POST prims0 .noFault store0 req0).1, .okDeduped) :=
  (c3_idempotent_duplicate_delivery prims0 store0 req0 ⟨none, none, none, none⟩ (by decide)
    rfl rfl).2.2.2.1

end Estimator
